import Mathlib

/-!
Verification of the MWPM decoder core (`dec_mwpm.py`): defect extraction,
geometry-aware edge weights (toric and planar), the path-walking correction
application, and the planar boundary filter.

Shallow embedding conventions:
- Python stabilizer objects (`graph.S` values) carry `sID = (type, row, col)`
  and a syndrome bit `state`; we embed them as `Stab`.
- Matching endpoints can be either stabilizers (`graph_objects.iStab`) or
  virtual boundary nodes (`graph_objects.iBoundary`); we embed the runtime
  class distinction as `NodeKind`.
- Edges (qubits) are mutable objects with `state` and `matching` flags.  We
  identify an edge object by a `Nat` id and carry the two mutable flag maps in
  `EState`; the lattice's static neighbor links (`stab.neighbors[dir]`,
  yielding a `(neighbor, edge)` pair) become a function from `sID` and
  direction string to a `(sID, edge id)` pair.  The lattice object
  (`graph_objects`, not part of the decoder source) is assumed fully linked,
  so the neighbor map is total, matching the decoder's assumption that every
  required `neighbors[yd]` lookup succeeds.
- Python `%` on ints with a positive modulus agrees with `Int.emod`, and
  `range(n)` for a possibly-negative `n` runs `n.toNat` times.
-/

inductive NodeKind
  | stab
  | bound
deriving DecidableEq, Repr

/-- A matching endpoint: a real stabilizer or a virtual boundary node,
with its `sID = (type, row, col)` triple. -/
structure Node where
  kind : NodeKind
  sID : Int × Int × Int
deriving DecidableEq, Repr

/-- A stabilizer as stored in `graph.S`: its `sID` and syndrome bit `state`. -/
structure Stab where
  sID : Int × Int × Int
  state : Bool
deriving DecidableEq, Repr

/-- The lattice geometry tag (`graph.type`, `"toric"` or `"planar"`). -/
inductive CodeType
  | toric
  | planar
deriving DecidableEq, Repr

/-- The static lattice consumed by the decoder: linear `size`, geometry tag,
the stabilizer collection `S` in scan order, the boundary-node collection `B`
keyed by `sID`, and the neighbor links (direction strings `"u"/"d"/"l"/"r"`
to a `(neighbor sID, edge id)` pair). -/
structure CodeLattice where
  size : Int
  ctype : CodeType
  S : List Stab
  B : Int × Int × Int → Node
  neighbors : Int × Int × Int → String → (Int × Int × Int) × Nat

/-- The mutable edge flags: `state` is the qubit error state, `matching` is
the in-correction mark; both keyed by edge id. -/
structure EState where
  state : Nat → Bool
  matching : Nat → Bool

/-- The decoder's mutable world: the lattice, `self.matching`, and the edge
flags. -/
structure World where
  graph : CodeLattice
  matching : List (Node × Node)
  es : EState

/-- Default node used only to give `List.getD` a total type. -/
def dnode : Node := ⟨NodeKind.stab, (0, 0, 0)⟩

/-- View a stabilizer as a matching endpoint. -/
def mkNode (s : Stab) : Node := ⟨NodeKind.stab, s.sID⟩

/-- Loop body of `toric.get_stabs` (dec_mwpm.py lines 29-37): scan `graph.S`,
keep active stabilizers, split on `sID[0] == 0` into verts and plaqs,
preserving scan order. -/
def toricStabsScan : List Stab → List Node × List Node
  | [] => ([], [])
  | s :: rest =>
    let vp := toricStabsScan rest
    if s.state then
      if s.sID.1 = 0 then (mkNode s :: vp.1, vp.2)
      else (vp.1, mkNode s :: vp.2)
    else vp

/-- `toric.get_stabs` (dec_mwpm.py lines 29-37). -/
def toric.get_stabs (g : CodeLattice) : List Node × List Node :=
  toricStabsScan g.S

/-- The toric pair weight (dec_mwpm.py lines 45-48): `wy = (y0 - y1) % size`,
`wx = (x0 - x1) % size`, weight `min(wy, size - wy) + min(wx, size - wx)`. -/
def toricW (sz : Int) (v0 v1 : Node) : Int :=
  let (_, y0, x0) := v0.sID
  let (_, y1, x1) := v1.sID
  let wy := (y0 - y1) % sz
  let wx := (x0 - x1) % sz
  min wy (sz - wy) + min wx (sz - wx)

/-- Inner loop of the all-pairs edge enumeration: `for i1, v1 in
enumerate(anyons[i0 + 1:])` appending `[i0, i1 + i0 + 1, weight]`; `j` is the
absolute index `i1 + i0 + 1` of `v1`. -/
def pairScanInner (wf : Node → Node → Int) (i0 : Nat) (v0 : Node) :
    Nat → List Node → List (Nat × Nat × Int)
  | _, [] => []
  | j, v1 :: rest => (i0, j, wf v0 v1) :: pairScanInner wf i0 v0 (j + 1) rest

/-- Outer loop of the all-pairs edge enumeration: `for i0, v0 in
enumerate(anyons[:-1])` with the inner loop over the suffix after `v0`.
Recursing through the last element as well is equivalent since its inner
loop is empty. -/
def pairScan (wf : Node → Node → Int) : Nat → List Node → List (Nat × Nat × Int)
  | _, [] => []
  | i0, v0 :: rest => pairScanInner wf i0 v0 (i0 + 1) rest ++ pairScan wf (i0 + 1) rest

/-- `toric.get_edges` (dec_mwpm.py lines 40-50): all pairs `i0 < i1` of
`anyons` with the periodic Manhattan weight. -/
def toric.get_edges (g : CodeLattice) (anyons : List Node) : List (Nat × Nat × Int) :=
  pairScan (toricW g.size) 0 anyons

/-- Loop body of `planar.get_stabs` (dec_mwpm.py lines 141-160): scan
`graph.S`; an active vert at column `x` gets boundary `B[(type, y, 0)]` when
`x < size/2` (ints: `2*x < size`) else `B[(type, y, size)]`; an active plaq at
row `y` gets `B[(type, -1, x)]` when `y < size/2` else
`B[(type, size - 1, x)]`.  Returns `(verts, plaqs, tv, tp)`. -/
def planarScan (g : CodeLattice) :
    List Stab → List Node × List Node × List Node × List Node
  | [] => ([], [], [], [])
  | s :: rest =>
    let r := planarScan g rest
    let t := s.sID.1
    let y := s.sID.2.1
    let x := s.sID.2.2
    if s.state then
      if t = 0 then
        (mkNode s :: r.1, r.2.1,
          g.B (t, y, if 2 * x < g.size then 0 else g.size) :: r.2.2.1, r.2.2.2)
      else
        (r.1, mkNode s :: r.2.1, r.2.2.1,
          g.B (t, if 2 * y < g.size then -1 else g.size - 1, x) :: r.2.2.2)
    else r

/-- `planar.get_stabs` (dec_mwpm.py lines 141-160): real defects followed by
their boundary companions (`verts += tv`, `plaqs += tp`). -/
def planar.get_stabs (g : CodeLattice) : List Node × List Node :=
  let r := planarScan g g.S
  (r.1 ++ r.2.2.1, r.2.1 ++ r.2.2.2)

/-- The planar real-real weight (dec_mwpm.py lines 171-173):
`abs(y0 - y1) + abs(x0 - x1)`. -/
def planarRealW (v0 v1 : Node) : Int :=
  let (_, y0, x0) := v0.sID
  let (_, y1, x1) := v1.sID
  |y0 - y1| + |x0 - x1|

/-- The real-to-companion weight (dec_mwpm.py lines 183-185).  Python unpacks
`(type, ys, xs) = anyons[i].sID` and then rebinds `type` via
`(type, yb, xb) = anyons[mid + i].sID`, so the `type` tested is the boundary
node's. -/
def companionW (vs vb : Node) : Int :=
  let (_, ys, xs) := vs.sID
  let (t, yb, xb) := vb.sID
  if t = 0 then |xb - xs| else |yb - ys|

/-- Third loop of `planar.get_edges` (dec_mwpm.py lines 182-186): one edge
`[i, mid + i, weight]` per real defect. -/
def companionEdges (anyons : List Node) (mid : Nat) : List (Nat × Nat × Int) :=
  (List.range mid).map fun i =>
    (i, mid + i, companionW (anyons.getD i dnode) (anyons.getD (mid + i) dnode))

/-- `planar.get_edges` (dec_mwpm.py lines 163-188), with `mid = len(anyons)//2`:
real-real pairs below `mid` (loops over `anyons[:mid-1]` and `anyons[i0+1:mid]`,
i.e. an all-pairs scan of the first `mid` elements), weight-0 pairs of the
suffix from `mid` (loops over `anyons[mid:-1]` and `anyons[i0+1:]`), and one
companion edge per real defect.  The method reads nothing from `self`. -/
def planar.get_edges (_g : CodeLattice) (anyons : List Node) : List (Nat × Nat × Int) :=
  let mid := anyons.length / 2
  pairScan planarRealW 0 (anyons.take mid)
    ++ pairScan (fun _ _ => 0) mid (anyons.drop mid)
    ++ companionEdges anyons mid

/-- `planar.remove_virtual` (dec_mwpm.py lines 190-196): keep a pair unless
both endpoints are `iBoundary` instances. -/
def planar.remove_virtual : List (Node × Node) → List (Node × Node)
  | [] => []
  | (v1, v2) :: rest =>
    if v1.kind = NodeKind.bound ∧ v2.kind = NodeKind.bound then
      planar.remove_virtual rest
    else (v1, v2) :: planar.remove_virtual rest

/-- The four deltas `(dy0, dx0, dy1, dx1)` of `apply_matching`
(dec_mwpm.py lines 101-111): modular for toric, signed for planar. -/
def pairDeltas (g : CodeLattice) (v0 v1 : Node) : Int × Int × Int × Int :=
  let (_, y0, x0) := v0.sID
  let (_, y1, x1) := v1.sID
  match g.ctype with
  | CodeType.toric =>
      ((y0 - y1) % g.size, (x0 - x1) % g.size, (y1 - y0) % g.size, (x1 - x0) % g.size)
  | CodeType.planar =>
      (y0 - y1, x0 - x1, y1 - y0, x1 - x0)

/-- The vertical step count and direction chosen by the walker
(dec_mwpm.py lines 113-118): `(dy0, "u")` when `dy0 < dy1`, else `(dy1, "d")`. -/
def pairYchoice (g : CodeLattice) (v0 v1 : Node) : Int × String :=
  let d := pairDeltas g v0 v1
  if d.1 < d.2.2.1 then (d.1, "u") else (d.2.2.1, "d")

/-- The horizontal step count and direction chosen by the walker
(dec_mwpm.py lines 119-124): `(dx0, "r")` when `dx0 < dx1`, else `(dx1, "l")`. -/
def pairXchoice (g : CodeLattice) (v0 v1 : Node) : Int × String :=
  let d := pairDeltas g v0 v1
  if d.2.1 < d.2.2.2 then (d.2.1, "r") else (d.2.2.2, "l")

/-- Toggle both flags of edge `e` (dec_mwpm.py lines 129-130 and 135-136). -/
def toggleEdge (e : Nat) (es : EState) : EState :=
  { state := fun k => if k = e then !es.state k else es.state k
    matching := fun k => if k = e then !es.matching k else es.matching k }

/-- One walk leg (dec_mwpm.py lines 126-130 / 132-136): from `pos`, step
`k` times in direction `dir`, toggling each traversed edge. -/
def walkLeg (g : CodeLattice) (dir : String) :
    (Int × Int × Int) → Nat → EState → EState
  | _, 0, es => es
  | pos, k + 1, es =>
      walkLeg g dir (g.neighbors pos dir).1 k (toggleEdge (g.neighbors pos dir).2 es)

/-- The edge ids traversed by one walk leg, in walk order. -/
def legEdges (g : CodeLattice) (dir : String) : (Int × Int × Int) → Nat → List Nat
  | _, 0 => []
  | pos, k + 1 => (g.neighbors pos dir).2 :: legEdges g dir (g.neighbors pos dir).1 k

/-- Correction application for one matched pair (dec_mwpm.py lines 96-136):
walk `dy` steps vertically from `v0`, then `dx` steps horizontally from `v1`.
A negative chosen delta runs zero steps, as Python `range` does. -/
def applyPair (g : CodeLattice) (es : EState) (v0 v1 : Node) : EState :=
  let yc := pairYchoice g v0 v1
  let xc := pairXchoice g v0 v1
  walkLeg g xc.2 v1.sID xc.1.toNat (walkLeg g yc.2 v0.sID yc.1.toNat es)

/-- `toric.apply_matching` (dec_mwpm.py lines 92-136), shared by `planar`:
fold the per-pair walker over `self.matching`; only edge flags change. -/
def toric.apply_matching (w : World) : World :=
  { w with es := w.matching.foldl (fun es p => applyPair w.graph es p.1 p.2) w.es }

/-- The edge ids toggled on behalf of one matched pair, in walk order. -/
def pairToggles (g : CodeLattice) (v0 v1 : Node) : List Nat :=
  legEdges g (pairYchoice g v0 v1).2 v0.sID (pairYchoice g v0 v1).1.toNat
    ++ legEdges g (pairXchoice g v0 v1).2 v1.sID (pairXchoice g v0 v1).1.toNat

/-- All edge ids toggled by one `apply_matching` run, in walk order. -/
def matToggles (g : CodeLattice) (m : List (Node × Node)) : List Nat :=
  m.flatMap fun p => pairToggles g p.1 p.2

/-- Replay a list of edge toggles. -/
def applyToggles (L : List Nat) (es : EState) : EState :=
  L.foldl (fun es e => toggleEdge e es) es

/-- The endpoints named by a list of weighted edges, in order of appearance.
`nx.Graph.add_edge(i0, i1, ...)` inserts both endpoints as graph nodes, so
these are the nodes of the `networkx` graph after those `add_edge` calls. -/
def edgeEndpoints (edges : List (Nat × Nat × Int)) : List Nat :=
  edges.flatMap fun t => [t.1, t.2.1]

/-- Model of the `nx.Graph` contents when `get_matching_networkx`
(dec_mwpm.py lines 52-72) reaches the plaquette oracle call: `nxgraph` is
created once before both partitions, so the `add_edge(i0, i1, weight=-weight)`
calls of the vertex partition (made only when `verts` is nonempty) are still
in the graph when the plaquette partition is matched.  Listed here is the
multiset of `add_edge` arguments; repeated `(i0, i1)` keys would only
overwrite weights, which does not affect the node set. -/
def nxEdgesAtPlaqCall (g : CodeLattice) : List (Nat × Nat × Int) :=
  let vp := toric.get_stabs g
  (if vp.1 = [] then []
   else (toric.get_edges g vp.1).map fun t => (t.1, t.2.1, -t.2.2))
    ++ (toric.get_edges g vp.2).map fun t => (t.1, t.2.1, -t.2.2)

/-- Size-4 periodic neighbor links and edge ids, one torus per check type.
Modelled from the spec: the lattice object is built by `graph_objects`, which
is not part of the decoder source; the spec's Stabilizer Lattice Model gives
each stabilizer `neighbors` links in the four directions with a shared
incident edge per adjacent pair, periodic for the toric geometry.  Edge ids:
the link down from `(t, y, x)` is `32*t + 4*y + x`, the link right from
`(t, y, x)` is `32*t + 16 + 4*y + x`. -/
def nbrs4 (pos : Int × Int × Int) (dir : String) : (Int × Int × Int) × Nat :=
  let t := pos.1
  let y := pos.2.1
  let x := pos.2.2
  if dir = "u" then
    ((t, (y - 1) % 4, x), 32 * t.toNat + 4 * ((y - 1) % 4).toNat + x.toNat)
  else if dir = "d" then
    ((t, (y + 1) % 4, x), 32 * t.toNat + 4 * y.toNat + x.toNat)
  else if dir = "l" then
    ((t, y, (x - 1) % 4), 32 * t.toNat + 16 + 4 * y.toNat + ((x - 1) % 4).toNat)
  else
    ((t, y, (x + 1) % 4), 32 * t.toNat + 16 + 4 * y.toNat + x.toNat)

/-- Concrete vertex-type stabilizer nodes used in concrete scenarios. -/
def nA : Node := ⟨NodeKind.stab, (0, 0, 0)⟩

/-- Vertex-type defect at row 0, column 2. -/
def nB : Node := ⟨NodeKind.stab, (0, 0, 2)⟩

/-- Vertex-type defect at row 0, column 1. -/
def nC : Node := ⟨NodeKind.stab, (0, 0, 1)⟩

/-- Vertex-type defect at row 0, column 3. -/
def nD : Node := ⟨NodeKind.stab, (0, 0, 3)⟩

/-- Vertex-type defect at row 2, column 0. -/
def nE : Node := ⟨NodeKind.stab, (0, 2, 0)⟩

/-- Boundary node at row 0, column 0. -/
def bA : Node := ⟨NodeKind.bound, (0, 0, 0)⟩

/-- Boundary node at row 2, column 0. -/
def bE : Node := ⟨NodeKind.bound, (0, 2, 0)⟩

/-- A size-4 toric lattice (stabilizer list left empty where unused). -/
def latT4 : CodeLattice :=
  { size := 4, ctype := CodeType.toric, S := [],
    B := fun k => ⟨NodeKind.bound, k⟩, neighbors := nbrs4 }

/-- A size-4 planar lattice (stabilizer list left empty where unused). -/
def latP4 : CodeLattice :=
  { size := 4, ctype := CodeType.planar, S := [],
    B := fun k => ⟨NodeKind.bound, k⟩, neighbors := nbrs4 }

/-- A size-4 toric lattice whose syndrome has four active vertex checks and
two active plaquette checks. -/
def latC2 : CodeLattice :=
  { size := 4, ctype := CodeType.toric,
    S := [⟨(0, 0, 0), true⟩, ⟨(0, 0, 1), true⟩, ⟨(0, 1, 0), true⟩,
          ⟨(0, 1, 1), true⟩, ⟨(1, 2, 2), true⟩, ⟨(1, 3, 3), true⟩],
    B := fun k => ⟨NodeKind.bound, k⟩, neighbors := nbrs4 }

/-- A size-4 planar lattice with one active vertex check and one active
plaquette check. -/
def latP4s : CodeLattice :=
  { size := 4, ctype := CodeType.planar,
    S := [⟨(0, 1, 0), true⟩, ⟨(0, 0, 3), true⟩, ⟨(1, 3, 1), false⟩,
          ⟨(1, 2, 2), true⟩],
    B := fun k => ⟨NodeKind.bound, k⟩, neighbors := nbrs4 }

/-- All edge flags initially cleared. -/
def es0 : EState := ⟨fun _ => false, fun _ => false⟩

/-- World for the shared-edge counterexample: two disjoint matched pairs in
row 0 whose horizontal legs overlap on one edge. -/
def w8 : World := ⟨latT4, [(nA, nB), (nC, nD)], es0⟩

/-- World with a single matched pair, used for frame-condition checks. -/
def w10 : World := ⟨latT4, [(nA, nB)], es0⟩


/-- Spec-side characterization of defect extraction: the active vertex-type
stabilizers of a scan list, in scan order. -/
def activeVerts (l : List Stab) : List Node :=
  (l.filter fun s => s.state && decide (s.sID.1 = 0)).map mkNode

/-- Spec-side characterization of defect extraction: the active
plaquette-type stabilizers of a scan list, in scan order. -/
def activePlaqs (l : List Stab) : List Node :=
  (l.filter fun s => s.state && !decide (s.sID.1 = 0)).map mkNode

/-- The boundary companion of a vertex-type defect: column 0 when the defect
sits in the left half, else column `size`. -/
def compV (g : CodeLattice) (n : Node) : Node :=
  g.B (n.sID.1, n.sID.2.1, if 2 * n.sID.2.2 < g.size then 0 else g.size)

/-- The boundary companion of a plaquette-type defect: row `-1` when the
defect sits in the upper half, else row `size - 1`. -/
def compP (g : CodeLattice) (n : Node) : Node :=
  g.B (n.sID.1, if 2 * n.sID.2.1 < g.size then -1 else g.size - 1, n.sID.2.2)

lemma applyToggles_cons (a : Nat) (L : List Nat) (es : EState) :
    applyToggles (a :: L) es = applyToggles L (toggleEdge a es) := rfl

lemma applyToggles_append (L1 L2 : List Nat) (es : EState) :
    applyToggles (L1 ++ L2) es = applyToggles L2 (applyToggles L1 es) := by
  simp [applyToggles, List.foldl_append]

lemma xor_parity_succ (b : Bool) (n : Nat) :
    ((!b) ^^ decide (n % 2 = 1)) = (b ^^ decide ((n + 1) % 2 = 1)) := by
  have h : ((n + 1) % 2 = 1) ↔ ¬ (n % 2 = 1) := by omega
  by_cases hn : n % 2 = 1 <;> simp [hn, h]

/-- Each toggle flips the edge's two flags, so after replaying a toggle list
each flag is its initial value xor the parity of the edge's occurrence
count. -/
lemma applyToggles_flags (L : List Nat) (es : EState) (e : Nat) :
    (applyToggles L es).state e = (es.state e ^^ decide (L.count e % 2 = 1)) ∧
    (applyToggles L es).matching e = (es.matching e ^^ decide (L.count e % 2 = 1)) := by
  induction L generalizing es with
  | nil => simp [applyToggles]
  | cons a L ih =>
    rw [applyToggles_cons]
    obtain ⟨h1, h2⟩ := ih (toggleEdge a es)
    by_cases hea : e = a
    · subst hea
      rw [h1, h2]
      simp only [toggleEdge, if_pos rfl, List.count_cons_self]
      exact ⟨xor_parity_succ _ _, xor_parity_succ _ _⟩
    · rw [h1, h2]
      simp [toggleEdge, if_neg hea, List.count_cons_of_ne hea]

lemma walkLeg_eq (g : CodeLattice) (dir : String) :
    ∀ (k : Nat) (pos : Int × Int × Int) (es : EState),
      walkLeg g dir pos k es = applyToggles (legEdges g dir pos k) es := by
  intro k
  induction k with
  | zero => intro pos es; rfl
  | succ n ih =>
    intro pos es
    simp [walkLeg, legEdges, applyToggles_cons, ih]

lemma applyPair_eq (g : CodeLattice) (es : EState) (v0 v1 : Node) :
    applyPair g es v0 v1 = applyToggles (pairToggles g v0 v1) es := by
  simp [applyPair, pairToggles, applyToggles_append, walkLeg_eq]

lemma foldl_pairs (g : CodeLattice) :
    ∀ (m : List (Node × Node)) (es : EState),
      m.foldl (fun es p => applyPair g es p.1 p.2) es =
        applyToggles (matToggles g m) es := by
  intro m
  induction m with
  | nil => intro es; rfl
  | cons p m ih =>
    intro es
    rw [List.foldl_cons, applyPair_eq, ih]
    simp [matToggles, applyToggles_append]

/-- `apply_matching` replays exactly the toggle list of the walked paths. -/
lemma apply_matching_es (w : World) :
    (toric.apply_matching w).es = applyToggles (matToggles w.graph w.matching) w.es := by
  simp [toric.apply_matching, foldl_pairs]

lemma xor_cancel (b p : Bool) : ((b ^^ p) ^^ p) = b := by
  cases b <;> cases p <;> rfl

lemma pairScanInner_mem (wf : Node → Node → Int) (i0 : Nat) (v0 : Node) :
    ∀ (l : List Node) (j : Nat) (e : Nat × Nat × Int),
      e ∈ pairScanInner wf i0 v0 j l ↔
        ∃ k, k < l.length ∧ e = (i0, j + k, wf v0 (l.getD k dnode)) := by
  intro l
  induction l with
  | nil => intro j e; simp [pairScanInner]
  | cons v1 rest ih =>
    intro j e
    simp only [pairScanInner, List.mem_cons, ih (j + 1)]
    constructor
    · rintro (rfl | ⟨k, hk, rfl⟩)
      · exact ⟨0, by simp, by simp⟩
      · refine ⟨k + 1, by simpa using hk, ?_⟩
        simp [List.getD_cons_succ, Prod.ext_iff]
        omega
    · rintro ⟨k, hk, rfl⟩
      cases k with
      | zero => left; simp
      | succ k =>
        right
        refine ⟨k, by simpa using hk, ?_⟩
        simp [List.getD_cons_succ, Prod.ext_iff]
        omega

lemma pairScan_mem (wf : Node → Node → Int) :
    ∀ (l : List Node) (s : Nat) (e : Nat × Nat × Int),
      e ∈ pairScan wf s l ↔
        ∃ a b, a < b ∧ b < l.length ∧
          e = (s + a, s + b, wf (l.getD a dnode) (l.getD b dnode)) := by
  intro l
  induction l with
  | nil => intro s e; simp [pairScan]
  | cons v0 rest ih =>
    intro s e
    simp only [pairScan, List.mem_append, pairScanInner_mem, ih (s + 1)]
    constructor
    · rintro (⟨k, hk, rfl⟩ | ⟨a, b, hab, hb, rfl⟩)
      · refine ⟨0, k + 1, by omega, by simpa using hk, ?_⟩
        simp [List.getD_cons_succ, Prod.ext_iff]
        omega
      · refine ⟨a + 1, b + 1, by omega, by simpa using hb, ?_⟩
        simp [List.getD_cons_succ, Prod.ext_iff]
        omega
    · rintro ⟨a, b, hab, hb, rfl⟩
      cases a with
      | zero =>
        left
        cases b with
        | zero => omega
        | succ b =>
          refine ⟨b, by simpa using hb, ?_⟩
          simp [List.getD_cons_succ, Prod.ext_iff]
          omega
      | succ a =>
        right
        cases b with
        | zero => omega
        | succ b =>
          refine ⟨a, b, by omega, by simpa using hb, ?_⟩
          simp [List.getD_cons_succ, Prod.ext_iff]
          omega

lemma companionEdges_mem (anyons : List Node) (mid : Nat) (e : Nat × Nat × Int) :
    e ∈ companionEdges anyons mid ↔
      ∃ i, i < mid ∧
        e = (i, mid + i, companionW (anyons.getD i dnode) (anyons.getD (mid + i) dnode)) := by
  simp only [companionEdges, List.mem_map, List.mem_range]
  constructor
  · rintro ⟨i, hi, rfl⟩; exact ⟨i, hi, rfl⟩
  · rintro ⟨i, hi, rfl⟩; exact ⟨i, hi, rfl⟩

lemma getD_take_lt (l : List Node) :
    ∀ (n i : Nat), i < n → (l.take n).getD i dnode = l.getD i dnode := by
  induction l with
  | nil => intro n i _; simp
  | cons a l ih =>
    intro n i hin
    cases n with
    | zero => omega
    | succ n =>
      cases i with
      | zero => simp
      | succ i =>
        simp only [List.take_succ_cons, List.getD_cons_succ]
        exact ih n i (by omega)

lemma getD_drop (l : List Node) :
    ∀ (n i : Nat), (l.drop n).getD i dnode = l.getD (n + i) dnode := by
  induction l with
  | nil => intro n i; simp
  | cons a l ih =>
    intro n i
    cases n with
    | zero => simp
    | succ n =>
      have h : n + 1 + i = (n + i) + 1 := by omega
      rw [List.drop_succ_cons, h, List.getD_cons_succ]
      exact ih n i

lemma getD_map_lt (f : Node → Node) (l : List Node) :
    ∀ i, i < l.length → (l.map f).getD i dnode = f (l.getD i dnode) := by
  induction l with
  | nil => intro i hi; simp at hi
  | cons a l ih =>
    intro i hi
    cases i with
    | zero => simp
    | succ i =>
      simp only [List.map_cons, List.getD_cons_succ]
      exact ih i (by simpa using hi)

lemma getD_append_left_len (V W : List Node) :
    ∀ i, (V ++ W).getD (V.length + i) dnode = W.getD i dnode := by
  induction V with
  | nil => intro i; simp
  | cons a V ih =>
    intro i
    have h : (a :: V).length + i = (V.length + i) + 1 := by simp; omega
    rw [h, List.cons_append, List.getD_cons_succ]
    exact ih i

lemma toricStabsScan_eq (l : List Stab) :
    toricStabsScan l = (activeVerts l, activePlaqs l) := by
  induction l with
  | nil => rfl
  | cons s rest ih =>
    cases hs : s.state with
    | false => simp [toricStabsScan, activeVerts, activePlaqs, List.filter_cons, hs, ih]
    | true =>
      by_cases ht : s.sID.1 = 0 <;>
        simp [toricStabsScan, activeVerts, activePlaqs, List.filter_cons, hs, ht, ih]

lemma planarScan_eq (g : CodeLattice) (l : List Stab) :
    planarScan g l =
      (activeVerts l, activePlaqs l,
        (activeVerts l).map (compV g), (activePlaqs l).map (compP g)) := by
  induction l with
  | nil => rfl
  | cons s rest ih =>
    cases hs : s.state with
    | false => simp [planarScan, activeVerts, activePlaqs, List.filter_cons, hs, ih]
    | true =>
      by_cases ht : s.sID.1 = 0 <;>
        simp [planarScan, activeVerts, activePlaqs, List.filter_cons, hs, ht, ih,
          compV, compP, mkNode]

lemma emod_min_symm (S a b : Int) (hS : 0 < S) :
    min ((a - b) % S) (S - (a - b) % S) = min ((b - a) % S) (S - (b - a) % S) := by
  have hne : S ≠ 0 := by omega
  have h0 : 0 ≤ (a - b) % S := Int.emod_nonneg _ hne
  have h1 : (a - b) % S < S := Int.emod_lt_of_pos _ hS
  have hq := Int.ediv_add_emod (a - b) S
  have hk : b - a = (S - (a - b) % S) + S * (-((a - b) / S) - 1) := by
    linear_combination hq
  have h2 : (b - a) % S = (S - (a - b) % S) % S := by
    rw [hk, Int.add_mul_emod_self_left]
  rcases eq_or_lt_of_le h0 with h3 | h3
  · have h4 : (b - a) % S = 0 := by
      rw [h2, ← h3]
      simp
    rw [h4, ← h3]
  · have h4 : (b - a) % S = S - (a - b) % S := by
      rw [h2]
      exact Int.emod_eq_of_lt (by omega) (by omega)
    rw [h4]
    omega

lemma toricW_symm (sz : Int) (hS : 0 < sz) (v0 v1 : Node) :
    toricW sz v0 v1 = toricW sz v1 v0 := by
  obtain ⟨k0, t0, y0, x0⟩ := v0
  obtain ⟨k1, t1, y1, x1⟩ := v1
  simp only [toricW]
  rw [emod_min_symm sz y0 y1 hS, emod_min_symm sz x0 x1 hS]

/-- C7: for every lattice state and fixed matching, running `apply_matching`
twice with the identical matching returns every edge's error state to its
pre-first-application value: both runs replay the same toggle list (the walk
depends only on the static lattice and the matching), and each edge is
toggled mod 2 the same number of times in both runs. -/
theorem C7_apply_matching_involutive (w : World) (e : Nat) :
    (toric.apply_matching (toric.apply_matching w)).es.state e = w.es.state e := by
  have hgr : (toric.apply_matching w).graph = w.graph := rfl
  have hma : (toric.apply_matching w).matching = w.matching := rfl
  rw [apply_matching_es, hgr, hma, apply_matching_es]
  rw [(applyToggles_flags _ _ e).1, (applyToggles_flags _ _ e).1]
  exact xor_cancel _ _

/-- C8 counterexample: on a size-4 toric lattice with the disjoint matched
pairs ((0,0,0),(0,0,2)) and ((0,0,1),(0,0,3)), the horizontal walks overlap
on edge 17, which is traversed (it is in the toggle list) yet ends with its
`matching` mark false, because each traversal toggles rather than sets the
mark.  This refutes the claim that after a single run every traversed edge
has `matching = true` regardless of traversal multiplicity. -/
theorem C8_counterexample :
    (17 ∈ matToggles w8.graph w8.matching) ∧
      (toric.apply_matching w8).es.matching 17 = false := by decide

/-- C8 (amended): after a single run of `apply_matching`, every edge's
`matching` mark equals its pre-run value xor the parity of the number of
walk traversals of that edge — each traversal toggles the mark, so an edge
traversed exactly once from a cleared mark ends true, but an even number of
traversals cancels. -/
theorem C8_matching_parity (w : World) (e : Nat) :
    (toric.apply_matching w).es.matching e =
      (w.es.matching e ^^ decide ((matToggles w.graph w.matching).count e % 2 = 1)) := by
  rw [apply_matching_es]
  exact (applyToggles_flags _ _ e).2

/-- C9: the walker's direction choice, in both geometries: the row direction
is `"u"` exactly when `dy0 < dy1` and otherwise `"d"` (ties resolve to
`"d"`), and the column direction is `"r"` exactly when `dx0 < dx1` and
otherwise `"l"` (ties resolve to `"l"`), where `(dy0, dx0, dy1, dx1)` are
the geometry's deltas. -/
theorem C9_direction_choice (g : CodeLattice) (v0 v1 : Node) :
    ((pairYchoice g v0 v1).2 = "u" ↔ (pairDeltas g v0 v1).1 < (pairDeltas g v0 v1).2.2.1) ∧
    ((pairDeltas g v0 v1).1 = (pairDeltas g v0 v1).2.2.1 → (pairYchoice g v0 v1).2 = "d") ∧
    ((pairXchoice g v0 v1).2 = "r" ↔ (pairDeltas g v0 v1).2.1 < (pairDeltas g v0 v1).2.2.2) ∧
    ((pairDeltas g v0 v1).2.1 = (pairDeltas g v0 v1).2.2.2 → (pairXchoice g v0 v1).2 = "l") := by
  have hud : ("d" : String) ≠ "u" := by decide
  have hlr : ("l" : String) ≠ "r" := by decide
  refine ⟨?_, ?_, ?_, ?_⟩
  · by_cases h : (pairDeltas g v0 v1).1 < (pairDeltas g v0 v1).2.2.1 <;>
      simp [pairYchoice, h, hud]
  · intro h
    simp [pairYchoice, h]
  · by_cases h : (pairDeltas g v0 v1).2.1 < (pairDeltas g v0 v1).2.2.2 <;>
      simp [pairXchoice, h, hlr]
  · intro h
    simp [pairXchoice, h]

/-- C9 witness: a coincident pair ties both deltas, and the walker resolves
the ties to `"d"` and `"l"`. -/
theorem C9_direction_choice_witness :
    (pairDeltas latT4 nA nA).1 = (pairDeltas latT4 nA nA).2.2.1 ∧
      (pairYchoice latT4 nA nA).2 = "d" ∧
      (pairDeltas latT4 nA nA).2.1 = (pairDeltas latT4 nA nA).2.2.2 ∧
      (pairXchoice latT4 nA nA).2 = "l" :=
  ⟨by decide, (C9_direction_choice latT4 nA nA).2.1 (by decide), by decide,
    (C9_direction_choice latT4 nA nA).2.2.2 (by decide)⟩

/-- C10: `apply_matching` mutates only the flags of edges on the walked
paths: the lattice (stabilizer identities, syndrome bits, neighbor links,
size, geometry tag) and the stored matching are returned unchanged, and any
edge off the toggle list keeps both its error state and its matching mark. -/
theorem C10_frame (w : World) :
    (toric.apply_matching w).graph = w.graph ∧
    (toric.apply_matching w).matching = w.matching ∧
    ∀ e, e ∉ matToggles w.graph w.matching →
      (toric.apply_matching w).es.state e = w.es.state e ∧
      (toric.apply_matching w).es.matching e = w.es.matching e := by
  refine ⟨rfl, rfl, ?_⟩
  intro e he
  have hc : (matToggles w.graph w.matching).count e = 0 := by
    exact List.count_eq_zero.mpr he
  rw [apply_matching_es, (applyToggles_flags _ _ e).1, (applyToggles_flags _ _ e).2, hc]
  simp

/-- C10 witness: edge 999 lies on no walked path of the singleton matching
of `w10`, and both its flags survive `apply_matching` unchanged. -/
theorem C10_frame_witness :
    (999 ∉ matToggles w10.graph w10.matching) ∧
      ((toric.apply_matching w10).es.state 999 = w10.es.state 999 ∧
        (toric.apply_matching w10).es.matching 999 = w10.es.matching 999) :=
  ⟨by decide, (C10_frame w10).2.2 999 (by decide)⟩

/-- C1: divergence of the planar walker from the declared weight.  For the
planar matched pair (0,0,0)-(0,2,0) the walker's chosen deltas are the
signed values `dy = -2`, `dx = 0`, so both legs run zero steps (Python
`range` of a negative is empty) and zero edges are toggled, while
`planar.get_edges` declares weight 2 for this pair (edge `(0, 1, 2)` of the
boundary-augmented list).  Toggled count (0), `dy + dx` (-2) and the
declared weight (2) all differ, refuting the path-length property for the
planar geometry. -/
theorem C1_planar_walker_divergence :
    (pairToggles latP4 nA nE).length = 0 ∧
      (pairYchoice latP4 nA nE).1 + (pairXchoice latP4 nA nE).1 = -2 ∧
      (0, 1, (2 : Int)) ∈ planar.get_edges latP4 [nA, nE, bA, bE] := by decide

/-- C2: the shared `nx.Graph` leaks the vertex partition into the plaquette
oracle call.  On a toric syndrome with four active vertex checks and two
active plaquette checks, node 3 is still a node of the `networkx` graph when
the plaquette partition (of length 2) is matched, while the per-partition
edge list handed to blossom5 stays within indices below 2: the two oracle
invocations are not computed over the same per-partition graph, so the two
implementations cannot agree up to tie-breaking. -/
theorem C2_networkx_partition_leak :
    ((toric.get_stabs latC2).2).length = 2 ∧
      3 ∈ edgeEndpoints (nxEdgesAtPlaqCall latC2) ∧
      (toric.get_edges latC2 (toric.get_stabs latC2).2).all
        (fun t => decide (t.1 < 2) && decide (t.2.1 < 2)) = true := by decide

/-- C3: `toric.get_edges` emits exactly the pairs `i < j` of the partition,
each with weight `min(wy, S - wy) + min(wx, S - wx)` (the deltas taken mod
`S`, which is what `toricW` computes), and that weight is symmetric in the
two defects. -/
theorem C3_toric_edge_weights (g : CodeLattice) (hS : 0 < g.size) (anyons : List Node) :
    (∀ e ∈ toric.get_edges g anyons,
       ∃ i j, i < j ∧ j < anyons.length ∧
         e = (i, j, toricW g.size (anyons.getD i dnode) (anyons.getD j dnode))) ∧
    (∀ i j, i < j → j < anyons.length →
       (i, j, toricW g.size (anyons.getD i dnode) (anyons.getD j dnode)) ∈
         toric.get_edges g anyons) ∧
    (∀ v0 v1 : Node, toricW g.size v0 v1 = toricW g.size v1 v0) := by
  refine ⟨?_, ?_, fun v0 v1 => toricW_symm g.size hS v0 v1⟩
  · intro e he
    rw [toric.get_edges, pairScan_mem] at he
    obtain ⟨a, b, hab, hb, rfl⟩ := he
    refine ⟨a, b, hab, hb, ?_⟩
    simp
  · intro i j hij hj
    rw [toric.get_edges, pairScan_mem]
    exact ⟨i, j, hij, hj, by simp⟩

/-- C3 witness: on the size-4 toric lattice, the pair (0, 1) of a two-defect
partition is emitted with its torus Manhattan weight. -/
theorem C3_toric_edge_weights_witness :
    0 < latT4.size ∧
      (0, 1, toricW latT4.size (([nA, nB] : List Node).getD 0 dnode)
          (([nA, nB] : List Node).getD 1 dnode)) ∈
        toric.get_edges latT4 [nA, nB] :=
  ⟨by decide,
    (C3_toric_edge_weights latT4 (by decide) [nA, nB]).2.1 0 1 (by decide) (by decide)⟩

/-- C5: defect extraction.  `toric.get_stabs` returns exactly the active
stabilizers split by check type in scan order; `planar.get_stabs`
additionally appends, after the real defects, one nearest-edge boundary
companion per defect (column 0 when `2x < size` else column `size` for
vertex type; row -1 when `2y < size` else row `size - 1` for plaquette
type), so the companion of the real defect at position `i` sits at position
`mid + i`. -/
theorem C5_defect_extraction (g : CodeLattice) :
    toric.get_stabs g = (activeVerts g.S, activePlaqs g.S) ∧
    planar.get_stabs g =
      (activeVerts g.S ++ (activeVerts g.S).map (compV g),
        activePlaqs g.S ++ (activePlaqs g.S).map (compP g)) ∧
    (∀ i, i < (activeVerts g.S).length →
      (planar.get_stabs g).1.getD ((activeVerts g.S).length + i) dnode =
        compV g ((activeVerts g.S).getD i dnode)) ∧
    (∀ i, i < (activePlaqs g.S).length →
      (planar.get_stabs g).2.getD ((activePlaqs g.S).length + i) dnode =
        compP g ((activePlaqs g.S).getD i dnode)) := by
  have h2 : (planar.get_stabs g).1 =
      activeVerts g.S ++ (activeVerts g.S).map (compV g) := by
    simp [planar.get_stabs, planarScan_eq]
  have h3 : (planar.get_stabs g).2 =
      activePlaqs g.S ++ (activePlaqs g.S).map (compP g) := by
    simp [planar.get_stabs, planarScan_eq]
  refine ⟨?_, ?_, ?_, ?_⟩
  · rw [toric.get_stabs, toricStabsScan_eq]
  · rw [Prod.ext_iff]
    exact ⟨h2, h3⟩
  · intro i hi
    rw [h2, getD_append_left_len, getD_map_lt _ _ i hi]
  · intro i hi
    rw [h3, getD_append_left_len, getD_map_lt _ _ i hi]

/-- C5 witness: on the concrete planar lattice, the first vertex defect's
boundary companion sits right after the real defects, at index `mid + 0`. -/
theorem C5_defect_extraction_witness :
    0 < (activeVerts latP4s.S).length ∧
      (planar.get_stabs latP4s).1.getD ((activeVerts latP4s.S).length + 0) dnode =
        compV latP4s ((activeVerts latP4s.S).getD 0 dnode) :=
  ⟨by decide, (C5_defect_extraction latP4s).2.2.1 0 (by decide)⟩

/-- C6: the boundary filter is exactly the in-order filter dropping the
pairs whose two members are both virtual boundary nodes; consequently no
pair of the result has two virtual members, and every other pair of the
input is retained unchanged and in order. -/
theorem C6_remove_virtual_filter (m : List (Node × Node)) :
    planar.remove_virtual m =
      m.filter (fun p => !decide (p.1.kind = NodeKind.bound ∧ p.2.kind = NodeKind.bound)) ∧
    ∀ p ∈ planar.remove_virtual m,
      ¬ (p.1.kind = NodeKind.bound ∧ p.2.kind = NodeKind.bound) := by
  have hfil : planar.remove_virtual m =
      m.filter (fun p => !decide (p.1.kind = NodeKind.bound ∧ p.2.kind = NodeKind.bound)) := by
    induction m with
    | nil => rfl
    | cons p m ih =>
      obtain ⟨v1, v2⟩ := p
      by_cases h1 : v1.kind = NodeKind.bound <;> by_cases h2 : v2.kind = NodeKind.bound <;>
        simp [planar.remove_virtual, List.filter_cons, h1, h2, ih]
  refine ⟨hfil, ?_⟩
  intro p hp
  rw [hfil] at hp
  intro hand
  have h := (List.mem_filter.mp hp).2
  simp [hand.1, hand.2] at h

/-- C6 witness: a real-boundary pair survives the filter and indeed has a
non-virtual member. -/
theorem C6_remove_virtual_witness :
    ¬ (((nA, bA) : Node × Node).1.kind = NodeKind.bound ∧
        ((nA, bA) : Node × Node).2.kind = NodeKind.bound) :=
  (C6_remove_virtual_filter [(nA, bA), (bA, bE)]).2 (nA, bA) (by decide)

/-- C4: `planar.get_edges` on a boundary-augmented list of length `2*mid`
emits exactly three edge classes: every pair of real defects (indices below
`mid`) with the unwrapped Manhattan weight, every pair of virtual boundary
indices (at or above `mid`) with weight 0, and for each `i < mid` one edge
between real defect `i` and its own companion `mid + i` with the
perpendicular coordinate weight; in particular no edge joins a real defect
to a boundary node other than its own companion. -/
theorem C4_planar_edge_classes (g : CodeLattice) (anyons : List Node) (mid : Nat)
    (hmid : anyons.length = 2 * mid) :
    (∀ e ∈ planar.get_edges g anyons,
       (e.1 < e.2.1 ∧ e.2.1 < mid ∧
          e.2.2 = planarRealW (anyons.getD e.1 dnode) (anyons.getD e.2.1 dnode)) ∨
       (mid ≤ e.1 ∧ e.1 < e.2.1 ∧ e.2.1 < anyons.length ∧ e.2.2 = 0) ∨
       (∃ i, i < mid ∧
          e = (i, mid + i,
            companionW (anyons.getD i dnode) (anyons.getD (mid + i) dnode)))) ∧
    (∀ i j, i < j → j < mid →
       (i, j, planarRealW (anyons.getD i dnode) (anyons.getD j dnode)) ∈
         planar.get_edges g anyons) ∧
    (∀ i j, mid ≤ i → i < j → j < anyons.length →
       (i, j, (0 : Int)) ∈ planar.get_edges g anyons) ∧
    (∀ i, i < mid →
       (i, mid + i, companionW (anyons.getD i dnode) (anyons.getD (mid + i) dnode)) ∈
         planar.get_edges g anyons) := by
  have hm : anyons.length / 2 = mid := by omega
  have hlt : (anyons.take mid).length = mid := by
    rw [List.length_take]
    omega
  have hld : (anyons.drop mid).length = mid := by
    rw [List.length_drop]
    omega
  have hE : planar.get_edges g anyons =
      pairScan planarRealW 0 (anyons.take mid)
        ++ (pairScan (fun _ _ => 0) mid (anyons.drop mid)
            ++ companionEdges anyons mid) := by
    unfold planar.get_edges
    rw [hm, List.append_assoc]
  refine ⟨?_, ?_, ?_, ?_⟩
  · intro e he
    rw [hE, List.mem_append, List.mem_append] at he
    rcases he with h | h | h
    · left
      rw [pairScan_mem] at h
      obtain ⟨a, b, hab, hb, rfl⟩ := h
      rw [hlt] at hb
      have ha : a < mid := by omega
      dsimp only
      refine ⟨by omega, by omega, ?_⟩
      rw [getD_take_lt anyons mid a ha, getD_take_lt anyons mid b hb]
      norm_num
    · right
      left
      rw [pairScan_mem] at h
      obtain ⟨a, b, hab, hb, rfl⟩ := h
      rw [hld] at hb
      dsimp only
      exact ⟨by omega, by omega, by omega, rfl⟩
    · right
      right
      rw [companionEdges_mem] at h
      exact h
  · intro i j hij hj
    rw [hE, List.mem_append]
    left
    rw [pairScan_mem]
    have hi : i < mid := by omega
    refine ⟨i, j, hij, by omega, ?_⟩
    rw [getD_take_lt anyons mid i hi, getD_take_lt anyons mid j hj]
    norm_num
  · intro i j hi hij hj
    rw [hE, List.mem_append]
    right
    rw [List.mem_append]
    left
    rw [pairScan_mem]
    refine ⟨i - mid, j - mid, by omega, by omega, ?_⟩
    simp [Prod.ext_iff]
    omega
  · intro i hi
    rw [hE, List.mem_append]
    right
    rw [List.mem_append]
    right
    rw [companionEdges_mem]
    exact ⟨i, hi, rfl⟩

/-- C4 witness: on the four-node boundary-augmented list, real defect 0 gets
exactly its companion edge to index `mid + 0 = 2`. -/
theorem C4_planar_edge_classes_witness :
    ([nA, nE, bA, bE] : List Node).length = 2 * 2 ∧
      (0, 2 + 0, companionW (([nA, nE, bA, bE] : List Node).getD 0 dnode)
          (([nA, nE, bA, bE] : List Node).getD (2 + 0) dnode)) ∈
        planar.get_edges latP4 [nA, nE, bA, bE] :=
  ⟨by decide,
    (C4_planar_edge_classes latP4 [nA, nE, bA, bE] 2 (by decide)).2.2.2 0 (by decide)⟩
